import Mathlib

/-
Verification of the combinator command-line parsing library (files clp.hh,
clp.inl, dodo.inl of the repository).  We verify the rich, error-carrying
variant (namespace dodo in dodo.inl, with the structure declarations of
clp.hh), which the specification singles out as the authoritative one.

Modelling conventions (shallow embedding):
- a command-line token (one argv entry) is a List Char;
- error messages are String;
- the compile-time heterogeneous template machinery is instantiated at a
  single value type, a type parameter of each definition: the parse
  algorithms never mix values of different leaves, so a compound of leaves
  of different C++ types is obtained by taking the value type to be a sum;
- the capability decorators (WithPattern, WithDefaultValue,
  WithImplicitValue, WithCheck, WithCustomParser) become Option-valued
  fields of a record: a field is none exactly when the decorator is absent,
  and the chained WithPattern layers become the list of patterns in
  attachment order (WithPattern::match consults the base chain first, so
  the first attached pattern is tried first);
- fallible C++ code returning expected<T, std::string> becomes
  Except String T.
-/

/-- One flag pattern against one token, from WithPattern::match
(clp.hh lines 115-133): the token must start with the pattern, and then
either end (remainder empty) or continue with an '=' (remainder is the text
after the '='). -/
def patMatch (p t : List Char) : Option (List Char) :=
  if p <+: t then
    if t.length = p.length then some []
    else if t[p.length]? = some '=' then some (t.drop (p.length + 1))
    else none
  else none

/-- The specification's description of a single-pattern match, written from
the spec's words (section 4.1) for comparison with patMatch. -/
def patSpec (p t r : List Char) : Prop :=
  p <+: t ∧
    ((t.length = p.length ∧ r = []) ∨
      (t[p.length]? = some '=' ∧ r = t.drop (p.length + 1)))

/-- Matching of an option with a list of attached patterns, tried in
attachment order, first match winning: the chained WithPattern::match calls
of clp.hh lines 115-133 (the outermost layer delegates to the base chain
first, so patterns are tried in the order they were attached). -/
def optMatch : List (List Char) → List Char → Option (List Char)
  | [], _ => none
  | p :: ps, t =>
    match patMatch p t with
    | some r => some r
    | none => optMatch ps t

theorem patMatch_eq_some_iff {p t r : List Char} :
    patMatch p t = some r ↔ patSpec p t r := by
  unfold patMatch patSpec
  by_cases hp : p <+: t
  · by_cases hl : t.length = p.length
    · have hnone : t[p.length]? = none := List.getElem?_eq_none (by omega)
      simp [hp, hl, hnone, eq_comm]
    · by_cases he : t[p.length]? = some '='
      · simp [hp, hl, he, eq_comm]
      · simp [hp, hl, he]
  · simp [hp]

theorem patMatch_eq_none_iff {p t : List Char} :
    patMatch p t = none ↔ ∀ r, ¬ patSpec p t r := by
  constructor
  · intro h r hr
    rw [← patMatch_eq_some_iff] at hr
    rw [h] at hr
    exact Option.noConfusion hr
  · intro h
    cases hm : patMatch p t with
    | none => rfl
    | some r => exact absurd (patMatch_eq_some_iff.mp hm) (h r)

/-- C1: for an option with attached flag patterns, matching a token
succeeds with remainder r if and only if some attached pattern, tried in
attachment order with the first match winning, starts the token and the
token either ends there (remainder empty) or continues with '='
(remainder is the text after the '='); all other tokens fail to match. -/
theorem C1_pattern_match_characterization (ps : List (List Char)) (t r : List Char) :
    optMatch ps t = some r ↔
      ∃ (i : Nat) (p : List Char), ps[i]? = some p ∧ patSpec p t r ∧
        ∀ (j : Nat) (q : List Char), j < i → ps[j]? = some q → ∀ s, ¬ patSpec q t s := by
  induction ps with
  | nil => simp [optMatch]
  | cons p ps ih =>
    rw [optMatch]
    cases hm : patMatch p t with
    | some r0 =>
      simp only []
      constructor
      · intro h
        injection h with h
        subst h
        exact ⟨0, p, List.getElem?_cons_zero, patMatch_eq_some_iff.mp hm,
          fun j q hj => absurd hj (Nat.not_lt_zero j)⟩
      · rintro ⟨i, q, hq, hspec, hmin⟩
        cases i with
        | zero =>
          rw [List.getElem?_cons_zero] at hq
          injection hq with hq
          subst hq
          rw [patMatch_eq_some_iff.mpr hspec] at hm
          injection hm with hm
          rw [hm]
        | succ k =>
          exact absurd (patMatch_eq_some_iff.mp hm)
            (hmin 0 p (Nat.succ_pos k) List.getElem?_cons_zero r0)
    | none =>
      have hnp : ∀ s, ¬ patSpec p t s := patMatch_eq_none_iff.mp hm
      simp only []
      rw [ih]
      constructor
      · rintro ⟨i, q, hq, hspec, hmin⟩
        refine ⟨i + 1, q, by simpa using hq, hspec, ?_⟩
        intro j q2 hj hq2 s
        cases j with
        | zero =>
          rw [List.getElem?_cons_zero] at hq2
          injection hq2 with hq2
          subst hq2
          exact hnp s
        | succ k =>
          exact hmin k q2 (Nat.lt_of_succ_lt_succ hj) (by simpa using hq2) s
      · rintro ⟨i, q, hq, hspec, hmin⟩
        cases i with
        | zero =>
          rw [List.getElem?_cons_zero] at hq
          injection hq with hq
          subst hq
          exact absurd hspec (hnp r)
        | succ k =>
          refine ⟨k, q, by simpa using hq, hspec, ?_⟩
          intro j q2 hj hq2 s
          exact hmin (j + 1) q2 (Nat.succ_lt_succ hj) (by simpa using hq2) s

/-- A fully decorated named option, as consumed by the parse algorithms:
the Option leaf of clp.hh lines 189-208 together with its decorators.
patterns holds the WithPattern chain in attachment order; parseImpl is the
conversion of text to a value (the primitive parse-trait parser of the
leaf, or the WithCustomParser replacement); validate is the composed
WithCheck chain (none = value accepted, some msg = failure with msg). -/
structure SingleOpt (α : Type) where
  patterns : List (List Char)
  typeName : String
  parseImpl : List Char → Option α
  implicitValue : Option α
  defaultValue : Option α
  validate : α → Option String

/-- WithPattern::patterns_to_string (clp.hh lines 135-147): the attached
patterns, comma separated, in attachment order. -/
def patternsToString (ps : List (List Char)) : String :=
  String.intercalate ", " (ps.map String.mk)

/-- Conversion and validation of a matched remainder: the tail of
OptionInterface::parse(string_view) in dodo.inl lines 32-45. -/
def convertAndValidate {α : Type} (o : SingleOpt α) (arg : List Char) : Except String α :=
  match o.parseImpl arg with
  | none =>
    Except.error ("Could not convert argument \"" ++ String.mk arg ++ "\" to type " ++ o.typeName)
  | some v =>
    match o.validate v with
    | some msg =>
      Except.error ("Validation check failed for option " ++ patternsToString o.patterns ++
        "with argument \"" ++ String.mk arg ++ "\":\n\t" ++ msg)
    | none => Except.ok v

/-- OptionInterface::parse(string_view) of dodo.inl lines 25-46: an empty
matched remainder with an implicit value attached short-circuits to the
implicit value; otherwise the remainder is converted and validated. -/
def parseMatchedArg {α : Type} (o : SingleOpt α) (arg : List Char) : Except String α :=
  match o.implicitValue with
  | some i => if arg = [] then Except.ok i else convertAndValidate o arg
  | none => convertAndValidate o arg

/-- The resolution an option performs on a token it is offered inside a
compound: pattern match, then parse the remainder (the body of
try_parse_argument in dodo.inl lines 205-220). none = the token is not
this option's flag. -/
def resolveToken {α : Type} (o : SingleOpt α) (t : List Char) : Option (Except String α) :=
  (optMatch o.patterns t).map (parseMatchedArg o)

/-- The parse state of CompoundOption::parse: one slot per declared option
in declaration order, holding the option and its stored outcome (the
std::tuple of option_parse_result values in dodo.inl line 233). -/
abbrev OptState (α : Type) := List (SingleOpt α × Option (Except String α))

def initState {α : Type} (opts : List (SingleOpt α)) : OptState α :=
  opts.map fun o => (o, none)

/-- One token offered to the not-yet-resolved options in declaration order:
the fold-expression of try_parse_argument calls in dodo.inl lines 235-241.
A resolved option (slot already some) never participates again. Returns
none when no still-participating option's pattern matches the token. -/
def claimToken {α : Type} : OptState α → List Char → Option (OptState α)
  | [], _ => none
  | (o, r) :: rest, t =>
    match r with
    | some _ => (claimToken rest t).map (fun st => (o, r) :: st)
    | none =>
      match optMatch o.patterns t with
      | some m => some ((o, some (parseMatchedArg o m)) :: rest)
      | none => (claimToken rest t).map (fun st => (o, r) :: st)

/-- The token loop of CompoundOption::parse (dodo.inl lines 235-245):
tokens are processed in order; a token claimed by no option fails the
whole parse immediately with the Unrecognized argument error. -/
def parseLoop {α : Type} : OptState α → List (List Char) → Except String (OptState α)
  | st, [] => Except.ok st
  | st, t :: ts =>
    match claimToken st t with
    | some st2 => parseLoop st2 ts
    | none => Except.error ("Unrecognized argument \"" ++ String.mk t ++ "\"")

/-- complete_with_default_value (dodo.inl lines 222-228), applied to every
slot: an option that never matched is resolved to its default value, as-is,
when it has one. -/
def completeDefaults {α : Type} (st : OptState α) : OptState α :=
  st.map fun p =>
    match p.2 with
    | none =>
      match p.1.defaultValue with
      | some d => (p.1, some (Except.ok d))
      | none => (p.1, none)
    | some r => (p.1, some r)

def allResolved {α : Type} (st : OptState α) : Bool :=
  st.all fun p => p.2.isSome

def allOk {α : Type} (st : OptState α) : Bool :=
  st.all fun p =>
    match p.2 with
    | some (Except.ok _) => true
    | _ => false

def extractValues {α : Type} (st : OptState α) : List α :=
  st.filterMap fun p =>
    match p.2 with
    | some (Except.ok v) => some v
    | _ => none

/-- The tail of CompoundOption::parse after the token loop (dodo.inl lines
247-257): fill defaults, check that every option was matched (otherwise the
generic error "Unmatched option"), check that no stored outcome is an error
(otherwise the generic error "Option failed to parse"), and build the
result values in declaration order. -/
def finishParse {α : Type} (st : OptState α) : Except String (List α) :=
  if allResolved (completeDefaults st) then
    if allOk (completeDefaults st) then Except.ok (extractValues (completeDefaults st))
    else Except.error "Option failed to parse"
  else Except.error "Unmatched option"

/-- CompoundOption::parse of dodo.inl lines 230-258: the token loop, then
defaults, then the two checks (all options matched, no option failed) with
their generic error messages, then the result struct in declaration
order. -/
def compoundOptParse {α : Type} (opts : List (SingleOpt α)) (ts : List (List Char)) :
    Except String (List α) :=
  match parseLoop (initState opts) ts with
  | Except.error e => Except.error e
  | Except.ok st => finishParse st

/-- OptionInterface::parse(ArgsView) of dodo.inl lines 48-69: the
standalone parse of a single option over a token slice. -/
def singleOptParseArgs {α : Type} (o : SingleOpt α) (args : List (List Char)) :
    Except String α :=
  match args with
  | [] =>
    match o.defaultValue with
    | some d => Except.ok d
    | none => Except.error ("No matching argument for option " ++ patternsToString o.patterns)
  | [t] =>
    match optMatch o.patterns t with
    | some m => parseMatchedArg o m
    | none =>
      Except.error ("No matching argument for option " ++ patternsToString o.patterns ++
        "\nUnrecognized parameter \"" ++ String.mk t ++ "\"")
  | t :: _ :: _ =>
    Except.error ("No matching argument for option " ++ patternsToString o.patterns ++
      "\nUnrecognized parameter \"" ++ String.mk t ++ "\"")

/-- How many declared options (counted by slot, in declaration order) match
a given token. The order-independence of CompoundOption::parse holds
exactly when this never exceeds 1 for the supplied tokens. -/
def matchCount {α : Type} (st : OptState α) (t : List Char) : Nat :=
  st.countP fun p => (optMatch p.1.patterns t).isSome

theorem lt_length_of_getElem?_eq_some {β : Type} {l : List β} {i : Nat} {a : β}
    (h : l[i]? = some a) : i < l.length := by
  rcases List.getElem?_eq_some.mp h with ⟨hlt, _⟩
  exact hlt

theorem mem_of_getElem?_eq_some {β : Type} {l : List β} {i : Nat} {a : β}
    (h : l[i]? = some a) : a ∈ l := by
  rcases List.getElem?_eq_some.mp h with ⟨hlt, rfl⟩
  exact List.getElem_mem hlt

theorem set_of_getElem?_eq {β : Type} {l : List β} {i : Nat} {a : β}
    (h : l[i]? = some a) : l.set i a = l := by
  induction l generalizing i with
  | nil => rfl
  | cons x xs ih =>
    cases i with
    | zero =>
      rw [List.getElem?_cons_zero] at h
      injection h with h
      rw [List.set_cons_zero, h]
    | succ k =>
      rw [List.getElem?_cons_succ] at h
      rw [List.set_cons_succ, ih h]

theorem claimToken_fst {α : Type} :
    ∀ {st st2 : OptState α} {t : List Char}, claimToken st t = some st2 →
      st2.map Prod.fst = st.map Prod.fst := by
  intro st
  induction st with
  | nil => intro st2 t h; exact Option.noConfusion h
  | cons hd rest ih =>
    obtain ⟨o, r⟩ := hd
    intro st2 t h
    cases r with
    | some rv =>
      rw [claimToken] at h
      rcases Option.map_eq_some'.mp h with ⟨st3, h3, rfl⟩
      simp [ih h3]
    | none =>
      rw [claimToken] at h
      cases hm : optMatch o.patterns t with
      | some m =>
        rw [hm] at h
        injection h with h
        subst h
        simp
      | none =>
        rw [hm] at h
        rcases Option.map_eq_some'.mp h with ⟨st3, h3, rfl⟩
        simp [ih h3]

theorem matchCount_congr {α : Type} {st su : OptState α} {t : List Char}
    (h : st.map Prod.fst = su.map Prod.fst) : matchCount st t = matchCount su t := by
  unfold matchCount
  have h1 := List.countP_map (fun o : SingleOpt α => (optMatch o.patterns t).isSome) Prod.fst st
  have h2 := List.countP_map (fun o : SingleOpt α => (optMatch o.patterns t).isSome) Prod.fst su
  rw [h] at h1
  rw [h2] at h1
  exact h1.symm

/-- When at most one declared option matches a token, offering the token to
the options is characterized by which slot it fills: it succeeds exactly
when the unique matching option is not yet resolved, in which case the
token's parse outcome is stored in that option's slot. -/
theorem claimToken_char {α : Type} {t : List Char} :
    ∀ {st st2 : OptState α}, matchCount st t ≤ 1 →
      (claimToken st t = some st2 ↔
        ∃ (i : Nat) (o : SingleOpt α) (m : List Char),
          st[i]? = some (o, none) ∧ optMatch o.patterns t = some m ∧
            st2 = st.set i (o, some (parseMatchedArg o m))) := by
  intro st
  induction st with
  | nil =>
    intro st2 h
    constructor
    · intro hc; exact Option.noConfusion hc
    · rintro ⟨i, o, m, hi, -, -⟩
      rw [List.getElem?_nil] at hi
      exact Option.noConfusion hi
  | cons hd rest ih =>
    obtain ⟨o0, r0⟩ := hd
    intro st2 h
    have hcount := List.countP_cons
      (fun p : SingleOpt α × Option (Except String α) => (optMatch p.1.patterns t).isSome)
      (o0, r0) rest
    cases r0 with
    | some rv =>
      have hrest : matchCount rest t ≤ 1 := by
        unfold matchCount at h ⊢
        omega
      rw [claimToken]
      constructor
      · intro hc
        rcases Option.map_eq_some'.mp hc with ⟨st3, h3, rfl⟩
        rcases (ih hrest).mp h3 with ⟨i, o, m, hi, hm, rfl⟩
        exact ⟨i + 1, o, m, by simpa using hi, hm, by rw [List.set_cons_succ]⟩
      · rintro ⟨i, o, m, hi, hm, rfl⟩
        cases i with
        | zero =>
          rw [List.getElem?_cons_zero] at hi
          injection hi with hi
          exact absurd (congrArg Prod.snd hi) (by simp)
        | succ k =>
          rw [List.getElem?_cons_succ] at hi
          rw [List.set_cons_succ]
          have h3 : claimToken rest t = some (rest.set k (o, some (parseMatchedArg o m))) :=
            (ih hrest).mpr ⟨k, o, m, hi, hm, rfl⟩
          rw [h3]
          rfl
    | none =>
      cases hm0 : optMatch o0.patterns t with
      | some m0 =>
        have hrest0 : matchCount rest t = 0 := by
          unfold matchCount at h ⊢
          simp only [hm0, Option.isSome_some, if_pos] at hcount
          omega
        rw [claimToken, hm0]
        constructor
        · intro hc
          injection hc with hc
          subst hc
          exact ⟨0, o0, m0, List.getElem?_cons_zero, hm0, by rw [List.set_cons_zero]⟩
        · rintro ⟨i, o, m, hi, hm, rfl⟩
          cases i with
          | zero =>
            rw [List.getElem?_cons_zero] at hi
            injection hi with hi
            have ho : o = o0 := (congrArg Prod.fst hi).symm
            subst ho
            rw [hm0] at hm
            injection hm with hm
            subst hm
            rw [List.set_cons_zero]
          | succ k =>
            rw [List.getElem?_cons_succ] at hi
            have hpos : 0 < matchCount rest t := by
              unfold matchCount
              rw [List.countP_pos_iff]
              exact ⟨(o, none), mem_of_getElem?_eq_some hi, by simp [hm]⟩
            omega
      | none =>
        have hrest : matchCount rest t ≤ 1 := by
          unfold matchCount at h ⊢
          omega
        rw [claimToken, hm0]
        constructor
        · intro hc
          rcases Option.map_eq_some'.mp hc with ⟨st3, h3, rfl⟩
          rcases (ih hrest).mp h3 with ⟨i, o, m, hi, hm, rfl⟩
          exact ⟨i + 1, o, m, by simpa using hi, hm, by rw [List.set_cons_succ]⟩
        · rintro ⟨i, o, m, hi, hm, rfl⟩
          cases i with
          | zero =>
            rw [List.getElem?_cons_zero] at hi
            injection hi with hi
            have ho : o = o0 := (congrArg Prod.fst hi).symm
            subst ho
            rw [hm0] at hm
            exact Option.noConfusion hm
          | succ k =>
            rw [List.getElem?_cons_succ] at hi
            rw [List.set_cons_succ]
            have h3 : claimToken rest t = some (rest.set k (o, some (parseMatchedArg o m))) :=
              (ih hrest).mpr ⟨k, o, m, hi, hm, rfl⟩
            rw [h3]
            rfl

/-- Claims of two tokens that each match at most one declared option
commute: if both tokens are claimed in one order, they are claimed in the
other order with the same final state. -/
theorem claimToken_comm {α : Type} {st s1 s2 : OptState α} {t1 t2 : List Char}
    (h1 : matchCount st t1 ≤ 1) (h2 : matchCount st t2 ≤ 1)
    (hc1 : claimToken st t1 = some s1) (hc2 : claimToken s1 t2 = some s2) :
    ∃ s3, claimToken st t2 = some s3 ∧ claimToken s3 t1 = some s2 := by
  obtain ⟨i, o1, m1, hi, hm1, rfl⟩ := (claimToken_char h1).mp hc1
  have hfst1 : (st.set i (o1, some (parseMatchedArg o1 m1))).map Prod.fst = st.map Prod.fst := by
    rw [List.map_set]
    apply set_of_getElem?_eq
    rw [List.getElem?_map, hi]
    rfl
  have h2b : matchCount (st.set i (o1, some (parseMatchedArg o1 m1))) t2 ≤ 1 :=
    (matchCount_congr hfst1).trans_le h2
  obtain ⟨j, o2, m2, hj, hm2, rfl⟩ := (claimToken_char h2b).mp hc2
  have hij : i ≠ j := by
    intro hij
    subst hij
    rw [List.getElem?_set_self (lt_length_of_getElem?_eq_some hi)] at hj
    injection hj with hj
    exact absurd (congrArg Prod.snd hj) (by simp)
  have hj2 : st[j]? = some (o2, none) := by
    rw [List.getElem?_set_ne hij] at hj
    exact hj
  have hfst2 : (st.set j (o2, some (parseMatchedArg o2 m2))).map Prod.fst = st.map Prod.fst := by
    rw [List.map_set]
    apply set_of_getElem?_eq
    rw [List.getElem?_map, hj2]
    rfl
  refine ⟨st.set j (o2, some (parseMatchedArg o2 m2)),
    (claimToken_char h2).mpr ⟨j, o2, m2, hj2, hm2, rfl⟩, ?_⟩
  have h1b : matchCount (st.set j (o2, some (parseMatchedArg o2 m2))) t1 ≤ 1 :=
    (matchCount_congr hfst2).trans_le h1
  have hi2 : (st.set j (o2, some (parseMatchedArg o2 m2)))[i]? = some (o1, none) := by
    rw [List.getElem?_set_ne (Ne.symm hij)]
    exact hi
  refine (claimToken_char h1b).mpr ⟨i, o1, m1, hi2, hm1, ?_⟩
  exact List.set_comm _ _ _ hij

theorem parseLoop_cons_some {α : Type} {st st2 : OptState α} {t : List Char}
    {ts : List (List Char)} (hc : claimToken st t = some st2) :
    parseLoop st (t :: ts) = parseLoop st2 ts := by
  rw [parseLoop, hc]

theorem parseLoop_cons_none {α : Type} {st : OptState α} {t : List Char}
    {ts : List (List Char)} (hc : claimToken st t = none) :
    parseLoop st (t :: ts) = Except.error ("Unrecognized argument \"" ++ String.mk t ++ "\"") := by
  rw [parseLoop, hc]

/-- The token loop of CompoundOption::parse is invariant under permutation
of the tokens, provided each token matches at most one declared option and
the loop succeeds on one of the orders. -/
theorem parseLoop_perm {α : Type} {ts tu : List (List Char)} (hperm : ts.Perm tu) :
    ∀ st : OptState α, (∀ t ∈ ts, matchCount st t ≤ 1) →
      (∃ r, parseLoop st ts = Except.ok r) → parseLoop st tu = parseLoop st ts := by
  induction hperm with
  | nil => intro st _ _; rfl
  | cons x hp ih =>
    intro st hcnt hok
    cases hc : claimToken st x with
    | none =>
      rcases hok with ⟨r, hr⟩
      rw [parseLoop_cons_none hc] at hr
      exact Except.noConfusion hr
    | some st2 =>
      have hfst := claimToken_fst hc
      rw [parseLoop_cons_some hc, parseLoop_cons_some hc]
      refine ih st2 ?_ ?_
      · intro t ht
        exact (matchCount_congr hfst).trans_le (hcnt t (List.mem_cons_of_mem x ht))
      · rcases hok with ⟨r, hr⟩
        rw [parseLoop_cons_some hc] at hr
        exact ⟨r, hr⟩
  | swap x y l =>
    intro st hcnt hok
    rcases hok with ⟨r, hr⟩
    cases hcy : claimToken st y with
    | none =>
      rw [parseLoop_cons_none hcy] at hr
      exact Except.noConfusion hr
    | some s1 =>
      rw [parseLoop_cons_some hcy] at hr
      cases hcx : claimToken s1 x with
      | none =>
        rw [parseLoop_cons_none hcx] at hr
        exact Except.noConfusion hr
      | some s2 =>
        have hy1 : matchCount st y ≤ 1 := hcnt y (List.mem_cons_self y (x :: l))
        have hx1 : matchCount st x ≤ 1 :=
          hcnt x (List.mem_cons_of_mem y (List.mem_cons_self x l))
        obtain ⟨s3, hc3, hc4⟩ := claimToken_comm hy1 hx1 hcy hcx
        rw [parseLoop_cons_some hc3, parseLoop_cons_some hc4,
          parseLoop_cons_some hcy, parseLoop_cons_some hcx]
  | trans hp1 hp2 ih1 ih2 =>
    intro st hcnt hok
    have e12 := ih1 st hcnt hok
    have hcnt2 : ∀ t ∈ _, matchCount st t ≤ 1 := fun t ht => hcnt t (hp1.mem_iff.mpr ht)
    rcases hok with ⟨r, hr⟩
    exact (ih2 st hcnt2 ⟨r, e12.trans hr⟩).trans e12

/-- A concrete string-valued option used in concrete instances: the
identity conversion (always succeeds), no decorations beyond patterns. -/
def strOpt (pats : List String) : SingleOpt (List Char) :=
  { patterns := pats.map String.toList, typeName := "string",
    parseImpl := fun s => some s, implicitValue := none, defaultValue := none,
    validate := fun _ => none }

/-- C2, counterexample to the claim as stated: two declared options whose
pattern lists both contain "-a". Both orders of the two tokens parse
successfully, but the fields receive different values, so the result is
not permutation invariant. -/
theorem C2_counterexample :
    ([ "-a=2".toList, "-a=1".toList ] : List (List Char)).Perm
        [ "-a=1".toList, "-a=2".toList ] ∧
      compoundOptParse [strOpt ["-a"], strOpt ["-a"]] [ "-a=1".toList, "-a=2".toList ] =
        Except.ok [ "1".toList, "2".toList ] ∧
      compoundOptParse [strOpt ["-a"], strOpt ["-a"]] [ "-a=2".toList, "-a=1".toList ] =
        Except.ok [ "2".toList, "1".toList ] ∧
      ([ "1".toList, "2".toList ] : List (List Char)) ≠ [ "2".toList, "1".toList ] :=
  ⟨by decide, rfl, rfl, by decide⟩

/-- C2 (amended): for a CompoundOption, if each supplied token is matched
by at most one declared option (in particular whenever the declared
patterns do not overlap on the input), then every permutation of a
successfully parsed token list parses successfully to the identical
result values. Without that proviso the claim is false
(see the counterexample): a token matched by two declared options is
claimed by whichever is still unresolved first, so different token orders
can assign different values. -/
theorem C2_order_independence {α : Type} (opts : List (SingleOpt α))
    (ts tu : List (List Char)) (vs : List α)
    (hperm : ts.Perm tu)
    (hdisj : ∀ t ∈ ts, (opts.countP fun o => (optMatch o.patterns t).isSome) ≤ 1)
    (hok : compoundOptParse opts ts = Except.ok vs) :
    compoundOptParse opts tu = Except.ok vs := by
  have hbridge : ∀ t, matchCount (initState opts) t =
      opts.countP fun o => (optMatch o.patterns t).isSome := by
    intro t
    unfold matchCount initState
    rw [List.countP_map]
    rfl
  have hcnt : ∀ t ∈ ts, matchCount (initState opts) t ≤ 1 := by
    intro t ht
    rw [hbridge t]
    exact hdisj t ht
  have hok2 : ∃ r, parseLoop (initState opts) ts = Except.ok r := by
    unfold compoundOptParse at hok
    cases hl : parseLoop (initState opts) ts with
    | error e => rw [hl] at hok; exact Except.noConfusion hok
    | ok st => exact ⟨st, rfl⟩
  have heq := parseLoop_perm hperm (initState opts) hcnt hok2
  unfold compoundOptParse at hok ⊢
  rw [heq]
  exact hok

theorem C2_order_independence_witness :
    ([ "-a=1".toList, "-b=2".toList ] : List (List Char)).Perm
        [ "-b=2".toList, "-a=1".toList ] ∧
      (∀ t ∈ ([ "-a=1".toList, "-b=2".toList ] : List (List Char)),
        (([strOpt ["-a"], strOpt ["-b"]]).countP
          fun o => (optMatch o.patterns t).isSome) ≤ 1) ∧
      compoundOptParse [strOpt ["-a"], strOpt ["-b"]] [ "-a=1".toList, "-b=2".toList ] =
        Except.ok [ "1".toList, "2".toList ] ∧
      compoundOptParse [strOpt ["-a"], strOpt ["-b"]] [ "-b=2".toList, "-a=1".toList ] =
        Except.ok [ "1".toList, "2".toList ] :=
  ⟨by decide, by decide, rfl,
    C2_order_independence [strOpt ["-a"], strOpt ["-b"]]
      [ "-a=1".toList, "-b=2".toList ] [ "-b=2".toList, "-a=1".toList ]
      [ "1".toList, "2".toList ] (by decide) (by decide) rfl⟩

theorem compoundOptParse_of_loop_ok {α : Type} {opts : List (SingleOpt α)}
    {ts : List (List Char)} {st : OptState α}
    (h : parseLoop (initState opts) ts = Except.ok st) :
    compoundOptParse opts ts = finishParse st := by
  unfold compoundOptParse
  rw [h]

theorem claimToken_eq_none_iff {α : Type} {st : OptState α} {t : List Char} :
    claimToken st t = none ↔
      ∀ p ∈ st, p.2.isSome ∨ optMatch p.1.patterns t = none := by
  induction st with
  | nil => simp [claimToken]
  | cons hd rest ih =>
    obtain ⟨o, r⟩ := hd
    cases r with
    | some rv =>
      rw [claimToken]
      simp [Option.map_eq_none', ih]
    | none =>
      cases hm : optMatch o.patterns t with
      | some m =>
        rw [claimToken, hm]
        simp [hm]
      | none =>
        rw [claimToken, hm]
        simp [Option.map_eq_none', ih, hm]

theorem parseLoop_append {α : Type} (l1 l2 : List (List Char)) :
    ∀ st : OptState α, parseLoop st (l1 ++ l2) =
      match parseLoop st l1 with
      | Except.ok st2 => parseLoop st2 l2
      | Except.error e => Except.error e := by
  induction l1 with
  | nil => intro st; rfl
  | cons t ts ih =>
    intro st
    rw [List.cons_append]
    cases hc : claimToken st t with
    | some st2 =>
      rw [parseLoop_cons_some hc, parseLoop_cons_some hc, ih st2]
    | none =>
      rw [parseLoop_cons_none hc, parseLoop_cons_none hc]

/-- C4: CompoundOption::parse processes the input tokens in order, offering
each to the not-yet-resolved declared options in declaration order; as soon
as a token is reached that no still-participating option matches (every
slot is either already resolved — so it no longer participates, which is
why a second token for an already-resolved option is also reported this
way — or fails to pattern-match the token), the whole parse fails
immediately with the error Unrecognized argument "<token>", regardless of
the remaining tokens. -/
theorem C4_unrecognized_argument {α : Type} (opts : List (SingleOpt α))
    (ts1 ts2 : List (List Char)) (t : List Char) (st : OptState α)
    (h1 : parseLoop (initState opts) ts1 = Except.ok st)
    (h2 : ∀ p ∈ st, p.2.isSome ∨ optMatch p.1.patterns t = none) :
    compoundOptParse opts (ts1 ++ t :: ts2) =
      Except.error ("Unrecognized argument \"" ++ String.mk t ++ "\"") := by
  have hloop : parseLoop (initState opts) (ts1 ++ t :: ts2) =
      Except.error ("Unrecognized argument \"" ++ String.mk t ++ "\"") := by
    rw [parseLoop_append, h1]
    exact parseLoop_cons_none (claimToken_eq_none_iff.mpr h2)
  unfold compoundOptParse
  rw [hloop]

theorem C4_unrecognized_argument_witness :
    parseLoop (initState [strOpt ["-a"]]) [ "-a=1".toList ] =
        Except.ok ([(strOpt ["-a"], some (Except.ok "1".toList))] : OptState (List Char)) ∧
      (∀ p ∈ ([(strOpt ["-a"], some (Except.ok "1".toList))] : OptState (List Char)),
        p.2.isSome ∨ optMatch p.1.patterns "-a=2".toList = none) ∧
      compoundOptParse [strOpt ["-a"]] ([ "-a=1".toList ] ++ "-a=2".toList :: []) =
        Except.error ("Unrecognized argument \"" ++ String.mk "-a=2".toList ++ "\"") :=
  ⟨rfl, by simp,
    C4_unrecognized_argument [strOpt ["-a"]] [ "-a=1".toList ] [] "-a=2".toList
      [(strOpt ["-a"], some (Except.ok "1".toList))] rfl (by simp)⟩

/-- C5, counterexample to the claim as stated: a single declared option
with pattern "-a", no default, and an empty token list. The compound parse
fails, but with the generic message "Unmatched option" produced at dodo.inl
line 251, not with the option's own message
"No matching argument for option -a" (that message exists only in the
standalone OptionInterface::parse(ArgsView) path, dodo.inl line 56, which
CompoundOption::parse never calls). -/
theorem C5_counterexample :
    compoundOptParse [strOpt ["-a"]] ([] : List (List Char)) =
        Except.error "Unmatched option" ∧
      "Unmatched option" ≠
        "No matching argument for option " ++ patternsToString (strOpt ["-a"]).patterns :=
  ⟨rfl, by decide⟩

/-- C5 (amended): after the token loop of CompoundOption::parse has
consumed all tokens, the compound parse does fail whenever some declared
option is unresolved (no matching token and no default) or some resolved
option's stored outcome is an error — but with a generic message, not with
the option's own error: the unresolved check runs first and yields
Error("Unmatched option"), and otherwise a stored error outcome yields
Error("Option failed to parse"); the individual option's own message (such
as No matching argument for option <patterns>) is discarded. -/
theorem C5_compound_failure_messages {α : Type} (opts : List (SingleOpt α))
    (ts : List (List Char)) (st : OptState α)
    (h1 : parseLoop (initState opts) ts = Except.ok st) :
    ((∃ p ∈ st, p.2 = none ∧ p.1.defaultValue = none) →
        compoundOptParse opts ts = Except.error "Unmatched option") ∧
      (allResolved (completeDefaults st) = true →
        (∃ p ∈ st, ∃ e, p.2 = some (Except.error e)) →
          compoundOptParse opts ts = Except.error "Option failed to parse") := by
  rw [compoundOptParse_of_loop_ok h1]
  constructor
  · rintro ⟨p, hmem, hnone, hnd⟩
    obtain ⟨o, r⟩ := p
    simp only [] at hnone hnd
    subst hnone
    have hmem2 : (o, (none : Option (Except String α))) ∈ completeDefaults st := by
      have := List.mem_map_of_mem
        (fun p : SingleOpt α × Option (Except String α) =>
          match p.2 with
          | none =>
            match p.1.defaultValue with
            | some d => (p.1, some (Except.ok d))
            | none => (p.1, none)
          | some r => (p.1, some r)) hmem
      simpa [completeDefaults, hnd] using this
    have hfalse : allResolved (completeDefaults st) = false := by
      rw [Bool.eq_false_iff]
      intro hall
      have := List.all_eq_true.mp hall _ hmem2
      simp at this
    unfold finishParse
    rw [hfalse]
    rfl
  · intro hall
    rintro ⟨p, hmem, e, herr⟩
    obtain ⟨o, r⟩ := p
    simp only [] at herr
    subst herr
    have hmem2 : (o, some (Except.error e)) ∈ completeDefaults st := by
      have := List.mem_map_of_mem
        (fun p : SingleOpt α × Option (Except String α) =>
          match p.2 with
          | none =>
            match p.1.defaultValue with
            | some d => (p.1, some (Except.ok d))
            | none => (p.1, none)
          | some r => (p.1, some r)) hmem
      simpa [completeDefaults] using this
    have hnotok : allOk (completeDefaults st) = false := by
      rw [Bool.eq_false_iff]
      intro hok
      have := List.all_eq_true.mp hok _ hmem2
      simp at this
    unfold finishParse
    rw [hall, hnotok]
    rfl

theorem C5_compound_failure_messages_witness :
    parseLoop (initState [strOpt ["-a"]]) ([] : List (List Char)) =
        Except.ok (initState [strOpt ["-a"]]) ∧
      compoundOptParse [strOpt ["-a"]] ([] : List (List Char)) =
        Except.error "Unmatched option" :=
  ⟨rfl,
    (C5_compound_failure_messages [strOpt ["-a"]] [] (initState [strOpt ["-a"]]) rfl).1
      ⟨(strOpt ["-a"], none), by simp [initState], rfl, rfl⟩⟩

/-- C6: when a token is a bare mention of one of an option's patterns (the
matched remainder is empty) and the option has an implicit value attached,
resolving that token succeeds with the implicit value. The option's
conversion function and validation predicate are arbitrary here (they may
even always fail), so the implicit value short-circuits text conversion and
no conversion error is possible on such a token (dodo.inl lines 28-30). -/
theorem C6_implicit_value_short_circuits {α : Type} (o : SingleOpt α) (t : List Char) (i : α)
    (hbare : optMatch o.patterns t = some [])
    (himp : o.implicitValue = some i) :
    resolveToken o t = some (Except.ok i) := by
  unfold resolveToken
  rw [hbare]
  simp [parseMatchedArg, himp]

/-- A concrete boolean flag: pattern --flag, implicit true, default false,
with the primitive bool parser. -/
def flagOpt : SingleOpt Bool :=
  { patterns := ["--flag".toList], typeName := "bool",
    parseImpl := fun s =>
      if s = "true".toList then some true
      else if s = "false".toList then some false
      else none,
    implicitValue := some true, defaultValue := some false,
    validate := fun _ => none }

theorem C6_implicit_value_short_circuits_witness :
    optMatch flagOpt.patterns "--flag".toList = some [] ∧
      flagOpt.implicitValue = some true ∧
      resolveToken flagOpt "--flag".toList = some (Except.ok true) :=
  ⟨rfl, rfl, C6_implicit_value_short_circuits flagOpt "--flag".toList true rfl rfl⟩

theorem claimToken_preserves_nonmatching {α : Type} {t : List Char} :
    ∀ {st st2 : OptState α}, claimToken st t = some st2 →
      ∀ (i : Nat) (o : SingleOpt α) (r : Option (Except String α)),
        st[i]? = some (o, r) → optMatch o.patterns t = none → st2[i]? = some (o, r) := by
  intro st
  induction st with
  | nil => intro st2 hc; exact Option.noConfusion hc
  | cons hd rest ih =>
    obtain ⟨o0, r0⟩ := hd
    intro st2 hc i o r hi hm
    cases r0 with
    | some rv =>
      rw [claimToken] at hc
      rcases Option.map_eq_some'.mp hc with ⟨st3, h3, rfl⟩
      cases i with
      | zero => simpa using hi
      | succ k =>
        rw [List.getElem?_cons_succ] at hi ⊢
        exact ih h3 k o r hi hm
    | none =>
      rw [claimToken] at hc
      cases hm0 : optMatch o0.patterns t with
      | some m0 =>
        rw [hm0] at hc
        injection hc with hc
        subst hc
        cases i with
        | zero =>
          rw [List.getElem?_cons_zero] at hi
          injection hi with hi
          have ho : o = o0 := (congrArg Prod.fst hi).symm
          subst ho
          rw [hm0] at hm
          exact Option.noConfusion hm
        | succ k =>
          rw [List.getElem?_cons_succ] at hi ⊢
          exact hi
      | none =>
        rw [hm0] at hc
        rcases Option.map_eq_some'.mp hc with ⟨st3, h3, rfl⟩
        cases i with
        | zero => simpa using hi
        | succ k =>
          rw [List.getElem?_cons_succ] at hi ⊢
          exact ih h3 k o r hi hm

theorem parseLoop_preserves_nonmatching {α : Type} {ts : List (List Char)} :
    ∀ {st st2 : OptState α}, parseLoop st ts = Except.ok st2 →
      ∀ (i : Nat) (o : SingleOpt α) (r : Option (Except String α)),
        st[i]? = some (o, r) → (∀ t ∈ ts, optMatch o.patterns t = none) →
          st2[i]? = some (o, r) := by
  induction ts with
  | nil =>
    intro st st2 h i o r hi _
    rw [parseLoop] at h
    injection h with h
    subst h
    exact hi
  | cons t ts ih =>
    intro st st2 h i o r hi hnm
    cases hc : claimToken st t with
    | none =>
      rw [parseLoop_cons_none hc] at h
      exact Except.noConfusion h
    | some st3 =>
      rw [parseLoop_cons_some hc] at h
      have hi3 := claimToken_preserves_nonmatching hc i o r hi
        (hnm t (List.mem_cons_self t ts))
      exact ih h i o r hi3 fun u hu => hnm u (List.mem_cons_of_mem t hu)

theorem extractValues_getElem? {α : Type} :
    ∀ {st : OptState α}, allOk st = true →
      ∀ (i : Nat) (o : SingleOpt α) (v : α),
        st[i]? = some (o, some (Except.ok v)) → (extractValues st)[i]? = some v := by
  intro st
  induction st with
  | nil =>
    intro _ i o v hi
    rw [List.getElem?_nil] at hi
    exact Option.noConfusion hi
  | cons hd rest ih =>
    obtain ⟨o0, r0⟩ := hd
    intro hall i o v hi
    have hhd := List.all_eq_true.mp hall _ (List.mem_cons_self (o0, r0) rest)
    have hrest : allOk rest = true := by
      have : ∀ p ∈ rest, (match p.2 with
          | some (Except.ok _) => true
          | _ => false) = true :=
        fun p hp => List.all_eq_true.mp hall p (List.mem_cons_of_mem _ hp)
      exact List.all_eq_true.mpr this
    match hr0 : r0 with
    | some (Except.ok v0) =>
      have hext : extractValues ((o0, some (Except.ok v0)) :: rest) =
          v0 :: extractValues rest := rfl
      rw [hext]
      cases i with
      | zero =>
        rw [List.getElem?_cons_zero] at hi ⊢
        injection hi with hi
        have : some (Except.ok v0) = some (Except.ok v) := congrArg Prod.snd hi
        injection this with this
        injection this with this
        rw [this]
      | succ k =>
        rw [List.getElem?_cons_succ] at hi ⊢
        exact ih hrest k o v hi
    | some (Except.error e) => simp [hr0] at hhd
    | none => simp [hr0] at hhd

theorem finishParse_ok_inv {α : Type} {st : OptState α} {vs : List α}
    (h : finishParse st = Except.ok vs) :
    allOk (completeDefaults st) = true ∧ vs = extractValues (completeDefaults st) := by
  unfold finishParse at h
  split_ifs at h with h1 h2
  exact ⟨h2, (Except.ok.inj h).symm⟩

/-- C7: for an option with a default value attached, if no input token
matches any of its patterns, its slot survives the token loop unresolved
and is then filled with the default value as-is — the stored outcome is
success-with-default, built without consulting the option's conversion
function or validation predicate (both are arbitrary in this statement) —
and when the whole compound parse succeeds, the option's result field is
exactly the default value. -/
theorem C7_default_value_as_is {α : Type} (opts : List (SingleOpt α)) (ts : List (List Char))
    (i : Nat) (o : SingleOpt α) (d : α)
    (hi : opts[i]? = some o) (hd : o.defaultValue = some d)
    (hnm : ∀ t ∈ ts, optMatch o.patterns t = none) :
    (∀ st, parseLoop (initState opts) ts = Except.ok st →
        (completeDefaults st)[i]? = some (o, some (Except.ok d))) ∧
      ∀ vs, compoundOptParse opts ts = Except.ok vs → vs[i]? = some d := by
  have hpart1 : ∀ st, parseLoop (initState opts) ts = Except.ok st →
      (completeDefaults st)[i]? = some (o, some (Except.ok d)) := by
    intro st hloop
    have hinit : (initState opts)[i]? = some (o, none) := by
      unfold initState
      rw [List.getElem?_map, hi]
      rfl
    have hst := parseLoop_preserves_nonmatching hloop i o none hinit hnm
    unfold completeDefaults
    rw [List.getElem?_map, hst]
    simp [hd]
  refine ⟨hpart1, ?_⟩
  intro vs hok
  unfold compoundOptParse at hok
  cases hloop : parseLoop (initState opts) ts with
  | error e => rw [hloop] at hok; exact Except.noConfusion hok
  | ok st =>
    rw [hloop] at hok
    obtain ⟨hallok, rfl⟩ := finishParse_ok_inv hok
    exact extractValues_getElem? hallok i o d (hpart1 st hloop)

/-- A concrete defaulted option: pattern -a, default value "D". -/
def strOptD : SingleOpt (List Char) :=
  { strOpt ["-a"] with defaultValue := some "D".toList }

theorem C7_default_value_as_is_witness :
    ([strOptD][0]? = some strOptD) ∧
      strOptD.defaultValue = some "D".toList ∧
      compoundOptParse [strOptD] ([] : List (List Char)) = Except.ok [ "D".toList ] ∧
      ([ "D".toList ] : List (List Char))[0]? = some "D".toList :=
  ⟨rfl, rfl, rfl,
    (C7_default_value_as_is [strOptD] [] 0 strOptD "D".toList rfl rfl (by simp)).2
      [ "D".toList ] rfl⟩

/-- An option-shaped operand of the combination operator: either a single
(possibly decorated) option or a CompoundOption of options. As in the C++
(where CompoundOption's template parameters are constrained to
SingleOption, so a CompoundOption can never contain another
CompoundOption), the compound holds a flat list of single options —
nesting is unrepresentable. -/
inductive OptShape (α : Type) where
  | single (o : SingleOpt α)
  | compound (os : List (SingleOpt α))

/-- The declared options of a shape, in declaration order. -/
def shapeToList {α : Type} : OptShape α → List (SingleOpt α)
  | OptShape.single o => [o]
  | OptShape.compound os => os

/-- The four CompoundOption overloads of operator| (dodo.inl lines
266-290, declared at clp.hh lines 388-391): single|single builds a 2-ary
compound, compound|single appends, single|compound prepends,
compound|compound concatenates — always a flat compound, in left-to-right
order. -/
def combineOpt {α : Type} : OptShape α → OptShape α → OptShape α
  | OptShape.single a, OptShape.single b => OptShape.compound [a, b]
  | OptShape.compound as, OptShape.single b => OptShape.compound (as ++ [b])
  | OptShape.single a, OptShape.compound bs => OptShape.compound (a :: bs)
  | OptShape.compound as, OptShape.compound bs => OptShape.compound (as ++ bs)

/-- C3: combining three single-option declarations pairwise in either
association order yields one flat 3-ary CompoundOption holding the three
options in left-to-right order (never a compound nesting a compound:
the compound's elements are single options by construction, as in the
C++ where CompoundOption's parameters are SingleOption-constrained), and
the two resulting parsers have identical parse behavior on every token
list. -/
theorem C3_combine_flattening_assoc {α : Type} (a b c : SingleOpt α) :
    combineOpt (combineOpt (OptShape.single a) (OptShape.single b)) (OptShape.single c) =
        OptShape.compound [a, b, c] ∧
      combineOpt (OptShape.single a) (combineOpt (OptShape.single b) (OptShape.single c)) =
        OptShape.compound [a, b, c] ∧
      ∀ ts : List (List Char),
        compoundOptParse (shapeToList
          (combineOpt (combineOpt (OptShape.single a) (OptShape.single b))
            (OptShape.single c))) ts =
        compoundOptParse (shapeToList
          (combineOpt (OptShape.single a)
            (combineOpt (OptShape.single b) (OptShape.single c)))) ts :=
  ⟨rfl, rfl, fun _ => rfl⟩

/-- A fully decorated positional argument: the PositionalArgument leaf of
clp.hh lines 292-313 with its decorators (no patterns, no implicit
value). -/
structure SingleArg (α : Type) where
  name : String
  typeName : String
  parseImpl : List Char → Option α
  defaultValue : Option α
  validate : α → Option String

/-- PositionalArgumentInterface::parse(string_view) of dodo.inl lines
122-139: convert the whole token, then validate. -/
def argParseMatched {α : Type} (a : SingleArg α) (arg : List Char) : Except String α :=
  match a.parseImpl arg with
  | none =>
    Except.error ("Could not convert argument \"" ++ String.mk arg ++ "\" to type " ++ a.typeName)
  | some v =>
    match a.validate v with
    | some msg =>
      Except.error ("Validation check failed for argument " ++ a.name ++
        "with argument \"" ++ String.mk arg ++ "\":\n\t" ++ msg)
    | none => Except.ok v

/-- PositionalArgumentInterface::parse(ArgsView) of dodo.inl lines
141-159: an empty slice resolves to the default if present and to
Missing argument otherwise; a one-token slice is converted; a longer
slice is Too many arguments. -/
def argParseArgs {α : Type} (a : SingleArg α) (args : List (List Char)) : Except String α :=
  match args with
  | [] =>
    match a.defaultValue with
    | some d => Except.ok d
    | none => Except.error ("Missing argument " ++ a.name)
  | [t] => argParseMatched a t
  | _ :: _ :: _ => Except.error "Too many arguments."

/-- The per-argument slices of CompoundArgument::parse (dodo.inl lines
301-306): declared argument i receives the one-token slice at index i of
the supplied tokens, or the empty slice when fewer tokens were supplied. -/
def argResults {α : Type} (as : List (SingleArg α)) (ts : List (List Char)) :
    List (Except String α) :=
  as.mapIdx fun i a =>
    argParseArgs a
      (match ts[i]? with
       | some t => [t]
       | none => [])

/-- CompoundArgument::parse of dodo.inl lines 295-313: arity check with
its (space-less) Too many arguments message, positional resolution of each
declared argument at its index, the generic failure when any argument
failed, and the result values in declaration order. -/
def compoundArgParse {α : Type} (as : List (SingleArg α)) (ts : List (List Char)) :
    Except String (List α) :=
  if ts.length > as.length then
    Except.error ("Too many arguments. Provided" ++ toString ts.length ++
      "arguments. Program expects " ++ toString as.length)
  else
    if (argResults as ts).all (fun r =>
        match r with
        | Except.ok _ => true
        | _ => false) then
      Except.ok ((argResults as ts).filterMap fun r =>
        match r with
        | Except.ok v => some v
        | _ => none)
    else Except.error "Argument failed to parse"

/-- The find_if predicate of CompoundParser::parse (dodo.inl line 353):
a token is option-shaped when its first character is '-' (an empty argv
entry has the NUL terminator as arg[0], never '-'). -/
def isOptTok (t : List Char) : Bool :=
  decide (t[0]? = some '-')

/-- The index of the first option-shaped token (std::find_if at dodo.inl
line 353); equals the list length when no token starts with '-'. -/
def firstOptIdx : List (List Char) → Nat
  | [] => 0
  | t :: ts => if isOptTok t then 0 else firstOptIdx ts + 1

/-- CompoundParser::parse of dodo.inl lines 350-365: split the token list
at the first option-shaped token, parse the front as positional arguments
(propagating its error first), the rest as options (propagating its
error), and pair the results. -/
def compoundParserParse {α : Type} (as : List (SingleArg α)) (os : List (SingleOpt α))
    (ts : List (List Char)) : Except String (List α × List α) :=
  match compoundArgParse as (ts.take (firstOptIdx ts)) with
  | Except.error e => Except.error e
  | Except.ok avs =>
    match compoundOptParse os (ts.drop (firstOptIdx ts)) with
    | Except.error e => Except.error e
    | Except.ok ovs => Except.ok (avs, ovs)

theorem firstOptIdx_le_length (ts : List (List Char)) : firstOptIdx ts ≤ ts.length := by
  induction ts with
  | nil => exact Nat.le_refl 0
  | cons t ts ih =>
    rw [firstOptIdx]
    by_cases h : isOptTok t
    · rw [if_pos h]
      exact Nat.zero_le _
    · rw [if_neg h]
      exact Nat.succ_le_succ ih

theorem firstOptIdx_before (ts : List (List Char)) :
    ∀ (j : Nat) (t : List Char), j < firstOptIdx ts → ts[j]? = some t →
      isOptTok t = false := by
  induction ts with
  | nil =>
    intro j t hj ht
    rw [List.getElem?_nil] at ht
    exact Option.noConfusion ht
  | cons u ts ih =>
    intro j t hj ht
    rw [firstOptIdx] at hj
    by_cases h : isOptTok u
    · rw [if_pos h] at hj
      exact absurd hj (Nat.not_lt_zero j)
    · rw [if_neg h] at hj
      cases j with
      | zero =>
        rw [List.getElem?_cons_zero] at ht
        injection ht with ht
        subst ht
        exact Bool.eq_false_iff.mpr h
      | succ k =>
        rw [List.getElem?_cons_succ] at ht
        exact ih k t (Nat.lt_of_succ_lt_succ hj) ht

theorem firstOptIdx_at (ts : List (List Char)) :
    ∀ t : List Char, ts[firstOptIdx ts]? = some t → isOptTok t = true := by
  induction ts with
  | nil =>
    intro t ht
    rw [List.getElem?_nil] at ht
    exact Option.noConfusion ht
  | cons u ts ih =>
    intro t ht
    rw [firstOptIdx] at ht
    by_cases h : isOptTok u
    · rw [if_pos h, List.getElem?_cons_zero] at ht
      injection ht with ht
      subst ht
      exact h
    · rw [if_neg h, List.getElem?_cons_succ] at ht
      exact ih t ht

theorem firstOptIdx_eq_length_of_none (ts : List (List Char))
    (h : ∀ t ∈ ts, isOptTok t = false) : firstOptIdx ts = ts.length := by
  induction ts with
  | nil => rfl
  | cons u ts ih =>
    rw [firstOptIdx, if_neg ?_]
    · rw [List.length_cons, ih fun t ht => h t (List.mem_cons_of_mem u ht)]
    · rw [h u (List.mem_cons_self u ts)]
      exact Bool.false_ne_true

/-- C8: CompoundParser::parse splits the token list at the first token
whose first character is '-': every token strictly before that position
fails the dash test and is routed (in order) to CompoundArgument::parse,
the token at the split position (when it exists) passes the dash test, and
everything from that position on is routed to CompoundOption::parse, the
positional error being reported first; when no token starts with '-' the
whole list goes to the positional side and the option side receives the
empty list. -/
theorem C8_split_at_first_dash {α : Type} (as : List (SingleArg α)) (os : List (SingleOpt α))
    (ts : List (List Char)) :
    firstOptIdx ts ≤ ts.length ∧
      (∀ (j : Nat) (t : List Char), j < firstOptIdx ts → ts[j]? = some t →
        isOptTok t = false) ∧
      (∀ t : List Char, ts[firstOptIdx ts]? = some t → isOptTok t = true) ∧
      compoundParserParse as os ts =
        (match compoundArgParse as (ts.take (firstOptIdx ts)) with
         | Except.error e => Except.error e
         | Except.ok avs =>
           match compoundOptParse os (ts.drop (firstOptIdx ts)) with
           | Except.error e => Except.error e
           | Except.ok ovs => Except.ok (avs, ovs)) ∧
      ((∀ t ∈ ts, isOptTok t = false) →
        ts.take (firstOptIdx ts) = ts ∧ ts.drop (firstOptIdx ts) = []) := by
  refine ⟨firstOptIdx_le_length ts, firstOptIdx_before ts, firstOptIdx_at ts, rfl, ?_⟩
  intro h
  rw [firstOptIdx_eq_length_of_none ts h]
  exact ⟨List.take_length ts, List.drop_length ts⟩

/-- A concrete string-valued positional argument named file. -/
def strArg : SingleArg (List Char) :=
  { name := "file", typeName := "string", parseImpl := fun s => some s,
    defaultValue := none, validate := fun _ => none }

theorem C8_split_at_first_dash_witness :
    isOptTok "-w=1".toList = true ∧
      compoundParserParse [strArg] [strOpt ["-w"]] [ "file".toList, "-w=1".toList ] =
        Except.ok ([ "file".toList ], [ "1".toList ]) :=
  ⟨(C8_split_at_first_dash [strArg] [strOpt ["-w"]]
      [ "file".toList, "-w=1".toList ]).2.2.1 "-w=1".toList rfl, rfl⟩

/-- A Command (clp.hh lines 473-491): a literal command name bound to a
sub-parser. run is the bound parser's parse on the tokens after the
command word (Command::parse_command, dodo.inl lines 488-492, drops the
first token before delegating). All commands of a selector are
instantiated at one result type; the C++ variant over per-command result
types is obtained by taking that type to be a sum. -/
structure Cmd (σ : Type) where
  name : List Char
  run : List (List Char) → Except String σ

/-- detail::parse_impl of dodo.inl lines 450-470: try each declared
command in declaration order against token 0; on the first name match
delegate the remaining tokens to that command's sub-parser and return its
result or error unchanged; when no command is left, fail with the
Unrecognized command error. -/
def selParseImpl {σ : Type} (t : List Char) (rest : List (List Char)) :
    List (Cmd σ) → Except String σ
  | [] => Except.error ("Unrecognized command \"" ++ String.mk t ++ "\"")
  | c :: cs =>
    if c.name = t then
      match c.run rest with
      | Except.error e => Except.error e
      | Except.ok v => Except.ok v
    else selParseImpl t rest cs

/-- CommandSelector::parse of dodo.inl lines 473-480: an empty token list
fails with Expected command., otherwise token 0 selects the command. -/
def selParse {σ : Type} (cs : List (Cmd σ)) (ts : List (List Char)) : Except String σ :=
  match ts with
  | [] => Except.error "Expected command."
  | t :: rest => selParseImpl t rest cs

/-- C9: CommandSelector::parse on the empty token list fails with
Expected command.; on a non-empty list it compares token 0 for string
equality against the declared command names in declaration order: the
first command whose name equals token 0 receives the token list minus the
first element and its result or error is returned unchanged, and if no
declared name equals token 0 the parse fails with
Unrecognized command "<token0>". -/
theorem C9_command_selection {σ : Type} (cs : List (Cmd σ)) (ts : List (List Char)) :
    (ts = [] → selParse cs ts = Except.error "Expected command.") ∧
      ∀ (t : List Char) (rest : List (List Char)), ts = t :: rest →
        (∀ (i : Nat) (c : Cmd σ), cs[i]? = some c → c.name = t →
          (∀ (j : Nat) (cj : Cmd σ), j < i → cs[j]? = some cj → cj.name ≠ t) →
            selParse cs ts = c.run rest) ∧
        ((∀ c ∈ cs, c.name ≠ t) →
          selParse cs ts = Except.error ("Unrecognized command \"" ++ String.mk t ++ "\"")) := by
  constructor
  · intro h
    subst h
    rfl
  · intro t rest h
    subst h
    constructor
    · intro i c hi hname hfirst
      rw [selParse]
      induction cs generalizing i with
      | nil =>
        rw [List.getElem?_nil] at hi
        exact Option.noConfusion hi
      | cons c0 cs ih =>
        cases i with
        | zero =>
          rw [List.getElem?_cons_zero] at hi
          injection hi with hi
          subst hi
          rw [selParseImpl, if_pos hname]
          cases hr : c0.run rest with
          | error e => rfl
          | ok v => rfl
        | succ k =>
          rw [List.getElem?_cons_succ] at hi
          have h0 : c0.name ≠ t :=
            hfirst 0 c0 (Nat.succ_pos k) List.getElem?_cons_zero
          rw [selParseImpl, if_neg h0]
          exact ih k hi fun j cj hj hcj =>
            hfirst (j + 1) cj (Nat.succ_lt_succ hj) (by simpa using hcj)
    · intro hnone
      rw [selParse]
      induction cs with
      | nil => rfl
      | cons c0 cs ih =>
        rw [selParseImpl, if_neg (hnone c0 (List.mem_cons_self c0 cs))]
        exact ih fun c hc => hnone c (List.mem_cons_of_mem c0 hc)

/-- Two concrete commands used in concrete instances: the sub-parser of a
command returns the number of tokens it was handed. -/
def cmdA : Cmd Nat := { name := "alpha".toList, run := fun l => Except.ok l.length }

def cmdB : Cmd Nat := { name := "beta".toList, run := fun l => Except.ok (100 + l.length) }

theorem C9_command_selection_witness :
    ([cmdA, cmdB][1]? = some cmdB) ∧
      cmdB.name = "beta".toList ∧
      selParse [cmdA, cmdB] [ "beta".toList, "x".toList ] = Except.ok 101 :=
  ⟨rfl, rfl, by
    have h := ((C9_command_selection [cmdA, cmdB]
        [ "beta".toList, "x".toList ]).2 "beta".toList [ "x".toList ] rfl).1
        1 cmdB rfl rfl ?_
    · exact h
    · intro j cj hj hcj
      interval_cases j
      rw [List.getElem?_cons_zero] at hcj
      injection hcj with hcj
      subst hcj
      intro hcontra
      exact absurd (congrArg String.mk hcontra) (by decide)⟩

/-- CommandSelector::match (clp.hh line 510): true when any declared
command's name equals the token. -/
def cmdMatchAny {σ : Type} (cs : List (Cmd σ)) (t : List Char) : Bool :=
  cs.any fun c => decide (c.name = t)

/-- CommandWithImplicitCommand::parse of dodo.inl lines 584-604. The C++
reads argv[0] before checking argc, so on an empty argument list the
behavior is undefined; in this total embedding the out-of-bounds read of
token 0 is modelled by the none branch of List.head?, and the function
returns none exactly when that branch is taken. When token 0 exists, it
selects between the command selector (handed the full list, command word
included) and the implicit/fallback parser (handed the full list). -/
def cwicParse {σ : Type} (cs : List (Cmd σ)) (implicitCmd : List (List Char) → Except String σ)
    (ts : List (List Char)) : Option (Except String σ) :=
  match ts.head? with
  | none => none
  | some t =>
    some
      (if cmdMatchAny cs t then
        match selParse cs ts with
        | Except.error e => Except.error e
        | Except.ok v => Except.ok v
      else implicitCmd ts)

/-- C10: CommandWithImplicitCommand::parse reads token 0 unconditionally,
with no emptiness guard (unlike CommandSelector::parse, whose argc <= 0
check makes it total: it returns Expected command. on the empty list); in
the total embedding the out-of-bounds branch of the token-0 access is
unreachable exactly when the argument list is non-empty, so the parse is
defined exactly under that precondition. -/
theorem C10_implicit_command_head_read {σ : Type} (cs : List (Cmd σ))
    (implicitCmd : List (List Char) → Except String σ) (ts : List (List Char)) :
    ((cwicParse cs implicitCmd ts).isSome ↔ ts ≠ []) ∧
      selParse cs [] = Except.error "Expected command." := by
  refine ⟨?_, rfl⟩
  cases ts with
  | nil => simp [cwicParse]
  | cons t rest => simp [cwicParse]
